import Mathlib

/-!
Shallow embedding of the toy-kafka filestore backend
(`svr/backends/implementations/filestore/filestore.go`) together with the
parts of the `index` and `filenamer` packages it calls; those two packages
are not part of the sources at hand, so their operations are modelled from
the specification (each such definition carries a doc comment saying so).

Disk I/O is made explicit: the on-disk world is a `DiskState` value
(index file, topic directories, segment files) and every operation threads
it. I/O failures of the underlying filesystem are injected through a
`Faults` record, one flag per failing system call, mirroring the `err`
checks of the Go code branch for branch. The `gob` encoding of a stored
message is external to the repository; the encoded record's byte length is
modelled as the length of the message payload, which ranges over all
naturals, as the claims quantify over arbitrary encoded sizes.
-/

namespace ToyKafka

/-- Type `toykafka.Message`: an opaque payload (a byte slice), supplied by the
caller. Modelled as a list of naturals. -/
abbrev Message := List Nat

/-- The 1 MiB cap on a segment file, from `const maximumFileSize = 1048576`. -/
def maximumFileSize : Nat := 1048576

/-- The on-disk record type `storedMessage` of filestore.go: the payload,
its creation timestamp (modelled as a natural) and its assigned number. -/
structure storedMessage where
  message : Message
  creationTime : Nat
  messageNumber : Int
deriving DecidableEq, Repr

/-- Modelled from the spec: the byte length of the gob-encoded
`storedMessage` record (the gob encoder is external to the repository);
modelled as the payload length, which can take any natural value. -/
def encodedSize (sm : storedMessage) : Nat := sm.message.length

/-- Function `makeMsgToStore` of filestore.go: wrap the message with the current
time and the assigned message number. (`time.Now()` is passed in as
`now`.) -/
def makeMsgToStore (message : Message) (now : Nat) (msgNumber : Int) : storedMessage :=
  ⟨message, now, msgNumber⟩

/-- Modelled from the spec (index package, §4.1): per-segment metadata,
the `(messageNumber, creationTimestamp)` pairs registered against a
segment file. -/
structure FileMeta where
  msgMetas : List (Int × Nat)
deriving Repr

/-- Modelled from the spec: `RegisterNewMessage(messageNumber, timestamp)`
records that this message number now lives in this segment. -/
def FileMeta.RegisterNewMessage (fm : FileMeta) (n : Int) (t : Nat) : FileMeta :=
  ⟨fm.msgMetas ++ [(n, t)]⟩

/-- Modelled from the spec: a topic's ordered segment list together with
the per-file metadata map (`Meta` in the Go code, read as a total map with
empty default). -/
structure MessageFileList where
  fileNames : List String
  meta : String → FileMeta

/-- Modelled from the spec: `RegisterNewFile(fileName)` appends a new
SegmentMeta with no messages yet; it becomes the new active segment. -/
def MessageFileList.RegisterNewFile (mfl : MessageFileList) (fn : String) : MessageFileList :=
  ⟨mfl.fileNames ++ [fn], fun x => if x = fn then ⟨[]⟩ else mfl.meta x⟩

/-- Modelled from the spec: the Index maps each topic to its segment
list; read as a total map whose default is the empty entry
(`GetMessageFileListFor` creates the entry if absent). -/
structure Index where
  entries : String → MessageFileList

/-- Modelled from the spec: `GetMessageFileListFor(topic)` returns the
topic's segment-list entry, creating it if absent. -/
def Index.GetMessageFileListFor (idx : Index) (topic : String) : MessageFileList :=
  idx.entries topic

/-- Functional update of one topic's entry (the Go code mutates the entry
returned by `GetMessageFileListFor` in place). -/
def Index.setEntry (idx : Index) (topic : String) (mfl : MessageFileList) : Index :=
  ⟨fun t => if t = topic then mfl else idx.entries t⟩

/-- All message numbers registered against the files of a segment list,
in file order. -/
def numsFor (meta : String → FileMeta) : List String → List Int
  | [] => []
  | fn :: rest => ((meta fn).msgMetas.map Prod.fst) ++ numsFor meta rest

/-- All message numbers recorded for a topic's segment list. -/
def topicNums (mfl : MessageFileList) : List Int :=
  numsFor mfl.meta mfl.fileNames

/-- Maximum of a list of integers, `-1` for the empty list. -/
def maxOf : List Int → Int
  | [] => -1
  | a :: l => max a (maxOf l)

/-- Modelled from the spec: `NextMessageNumberFor(topic)` returns one plus
the highest message number ever assigned for the topic (spec §3
invariant), with origin 0 for a fresh topic. -/
def Index.NextMessageNumberFor (idx : Index) (topic : String) : Int :=
  maxOf (topicNums (idx.entries topic)) + 1

/-- Modelled from the spec: `CurrentMsgFileNameFor(topic)` returns the
filename of the topic's active (last) segment, or the empty string if the
topic has no segments yet. -/
def Index.CurrentMsgFileNameFor (idx : Index) (topic : String) : String :=
  ((idx.entries topic).fileNames.getLast?).getD ""

/-- Modelled from the spec (filenamer package, §4.2): a fresh filename,
guaranteed distinct from every name in the given list (it is strictly
longer than each of them: the concatenation of all existing names plus one
more character). -/
def freshName : List String → String
  | [] => "s"
  | a :: rest => a ++ freshName rest

/-- Modelled from the spec: `NewMsgFilenameFor(topic, index)` yields a
filename guaranteed distinct from every segment filename recorded for the
topic. -/
def NewMsgFilenameFor (topic : String) (idx : Index) : String :=
  freshName (idx.entries topic).fileNames

/-- Injected I/O failures, one flag per fallible system call of the Go
code; `true` means the corresponding call fails when reached. -/
structure Faults where
  mkdirFails : Bool
  statFails : Bool
  createFails : Bool
  writeFails : Bool
  encodeFails : Bool
  readDirFails : Bool

/-- The fault assignment under which every system call succeeds. -/
def noFaults : Faults := ⟨false, false, false, false, false, false⟩

/-- The on-disk world under the store's root directory: the index file
(`none` when missing or undecodable), the existing topic directories, and
the segment files keyed by `(topic, fileName)` holding their appended
records. -/
structure DiskState where
  diskIndex : Option Index
  topicDirs : List String
  files : List ((String × String) × List storedMessage)

/-- Look a segment file up on disk (first match on its key). -/
def getFile (files : List ((String × String) × List storedMessage)) (k : String × String) :
    Option (List storedMessage) :=
  match files with
  | [] => none
  | (k2, v) :: rest => if k2 = k then some v else getFile rest k

/-- Write a segment file to disk, replacing the first entry with the same
key or appending a new one. -/
def putFile (files : List ((String × String) × List storedMessage)) (k : String × String)
    (v : List storedMessage) : List ((String × String) × List storedMessage) :=
  match files with
  | [] => [(k, v)]
  | (k2, v2) :: rest => if k2 = k then (k, v) :: rest else (k2, v2) :: putFile rest k v

/-- Byte size of a segment file: the sum of its records' encoded sizes
(`file.Stat().Size()` in the Go code). -/
def fileSize (records : List storedMessage) : Nat :=
  (records.map encodedSize).sum

/-- Function `retrieveIndexFromDisk` of filestore.go: open the index file and
decode it; a missing or undecodable index file is an error. -/
def retrieveIndexFromDisk (s : DiskState) : Except String Index :=
  match s.diskIndex with
  | none => Except.error "os.Open()"
  | some idx => Except.ok idx

/-- Function `createTopicDirIfNotExists` of filestore.go: `os.Mkdir`; success and
the already-exists condition are both treated as success, any other
failure is an error. -/
def createTopicDirIfNotExists (s : DiskState) (flt : Faults) (topic : String) :
    Except String DiskState :=
  if topic ∈ s.topicDirs then Except.ok s
  else if flt.mkdirFails then Except.error "os.Mkdir()"
  else Except.ok { s with topicDirs := s.topicDirs ++ [topic] }

/-- Function `fileHasInsufficentRoom` of filestore.go: open and stat the active
segment; report whether its size plus the incoming encoded size would
exceed `maximumFileSize`. -/
def fileHasInsufficentRoom (s : DiskState) (flt : Faults) (msgFileName topic : String)
    (msgSize : Nat) : Except String Bool :=
  match getFile s.files (topic, msgFileName) with
  | none => Except.error "os.Open()"
  | some records =>
    if flt.statFails then Except.error "file.Stat()"
    else Except.ok (fileSize records + msgSize > maximumFileSize)

/-- Function `setupNewFileForTopic` of filestore.go: compute a fresh segment name,
`os.Create` the (empty) file, and register it in the Index's segment list
for the topic. -/
def setupNewFileForTopic (s : DiskState) (flt : Faults) (topic : String) (index : Index) :
    Except String (String × DiskState × Index) :=
  let fileName := NewMsgFilenameFor topic index
  if flt.createFails then Except.error "os.Create()"
  else
    let s2 : DiskState := { s with files := putFile s.files (topic, fileName) [] }
    let mfl := index.GetMessageFileListFor topic
    Except.ok (fileName, s2, index.setEntry topic (mfl.RegisterNewFile fileName))

/-- Function `saveAndRegisterMessage` of filestore.go: open the segment file in
append mode (an error if it does not exist), append the encoded record
(fails on a write error), then register the message number and creation
time against the segment's metadata in the (in-memory) Index. -/
def saveAndRegisterMessage (s : DiskState) (flt : Faults) (msgFileName topic : String)
    (msgToStore : storedMessage) (msgNumber : Int) (now : Nat) (index : Index) :
    Except String (DiskState × Index) :=
  match getFile s.files (topic, msgFileName) with
  | none => Except.error "os.OpenFile()"
  | some records =>
    if flt.writeFails then Except.error "file.Write()"
    else
      let s2 : DiskState :=
        { s with files := putFile s.files (topic, msgFileName) (records ++ [msgToStore]) }
      let mfl := index.GetMessageFileListFor topic
      let fm := (mfl.meta msgFileName).RegisterNewMessage msgNumber now
      let mfl2 : MessageFileList :=
        { mfl with meta := fun x => if x = msgFileName then fm else mfl.meta x }
      Except.ok (s2, index.setEntry topic mfl2)

/-- Function `saveIndex` of filestore.go: open the existing index file (an error if
it is missing) and encode the Index into it. -/
def saveIndex (s : DiskState) (flt : Faults) (index : Index) : Except String DiskState :=
  match s.diskIndex with
  | none => Except.error "os.Open()"
  | some _ =>
    if flt.encodeFails then Except.error "index.Encode()"
    else Except.ok { s with diskIndex := some index }

/-- The result triple of `store`: the assigned message number (`-1` on
every error path), the error, and the resulting on-disk state. -/
structure StoreResult where
  messageNumber : Int
  err : Option String
  state : DiskState

/-- Function `store` of filestore.go (lines 85-128), branch for branch: load the
Index, ensure the topic directory, reserve the next message number,
determine or create the active segment, append the encoded record, and
persist the updated Index. -/
def store (s : DiskState) (flt : Faults) (topic : String) (message : Message) (now : Nat) :
    StoreResult :=
  match retrieveIndexFromDisk s with
  | Except.error e => ⟨-1, some ("RetrieveIndexFromDisk(): " ++ e), s⟩
  | Except.ok index =>
  match createTopicDirIfNotExists s flt topic with
  | Except.error e => ⟨-1, some ("createTopicDirIfNotExists: " ++ e), s⟩
  | Except.ok s1 =>
  let msgNumber := index.NextMessageNumberFor topic
  let msgToStore := makeMsgToStore message now msgNumber
  let msgSize := encodedSize msgToStore
  let msgFileName := index.CurrentMsgFileNameFor topic
  match (if msgFileName = "" then Except.ok true
         else fileHasInsufficentRoom s1 flt msgFileName topic msgSize) with
  | Except.error e => ⟨-1, some ("fileHasInsufficietRoom(): " ++ e), s1⟩
  | Except.ok needNewFile =>
  match (if needNewFile then setupNewFileForTopic s1 flt topic index
         else Except.ok (msgFileName, s1, index)) with
  | Except.error e => ⟨-1, some ("setupNewFileForTopic(): " ++ e), s1⟩
  | Except.ok (fileName2, s2, index2) =>
  match saveAndRegisterMessage s2 flt fileName2 topic msgToStore msgNumber now index2 with
  | Except.error e => ⟨-1, some ("saveAndRegisterMessage(): " ++ e), s2⟩
  | Except.ok (s3, index3) =>
  match saveIndex s3 flt index3 with
  | Except.error e => ⟨-1, some ("saveIndex(): " ++ e), s3⟩
  | Except.ok s4 => ⟨msgNumber, none, s4⟩

/-- Function `deleteContents` of filestore.go: list the root directory (the only
failure that leaves the state untouched) and remove every entry in it —
topic directories, segment files and the index file alike. -/
def deleteContents (s : DiskState) (flt : Faults) : Option String × DiskState :=
  if flt.readDirFails then (some "ioutil.ReadDir()", s)
  else (none, ⟨none, [], []⟩)

/-- A mutex event performed by a public method, mirroring
`mutex.Lock()` / `defer mutex.Unlock()` in the Go method bodies. -/
inductive LockEvent
  | lock
  | unlock
deriving DecidableEq, Repr

/-- The exported `Store` method: takes the store-wide mutex for its whole
duration and delegates to `store`. -/
def FileStore.Store (s : DiskState) (flt : Faults) (topic : String) (m : Message) (now : Nat) :
    StoreResult × List LockEvent :=
  (store s flt topic m now, [LockEvent.lock, LockEvent.unlock])

/-- The exported `DeleteContents` method: takes the store-wide mutex and
delegates to `deleteContents`. -/
def FileStore.DeleteContents (s : DiskState) (flt : Faults) :
    (Option String × DiskState) × List LockEvent :=
  (deleteContents s flt, [LockEvent.lock, LockEvent.unlock])

/-- The exported `RemoveOldMessages` method exactly as written in
filestore.go (lines 52-55): it performs no mutex operation, touches
nothing, and returns `(-1, nil)`. -/
def FileStore.RemoveOldMessages (s : DiskState) (maxAge : Nat) :
    (Int × Option String × DiskState) × List LockEvent :=
  ((-1, none, s), [])

/-- The exported `Poll` method exactly as written in filestore.go (lines
59-64): it performs no mutex operation, ignores the store contents, and
returns the empty slice with `newReadFrom = 11` and no error. -/
def FileStore.Poll (s : DiskState) (topic : String) (readFrom : Int) :
    (List Message × Int × Option String) × List LockEvent :=
  (([], 11, none), [])

/-- The empty per-file metadata. -/
def emptyFileMeta : FileMeta := ⟨[]⟩

/-- A topic entry with no segments. -/
def emptyMFL : MessageFileList := ⟨[], fun _ => emptyFileMeta⟩

/-- The freshly initialised Index: no topics. -/
def emptyIndex : Index := ⟨fun _ => emptyMFL⟩

/-- A freshly initialised store: empty index file present, no topic
directories, no segment files. -/
def initState : DiskState := ⟨some emptyIndex, [], []⟩

/-- A store whose index file is missing (or undecodable). -/
def noIndexState : DiskState := ⟨none, [], []⟩

/-- A store holding one message, number 0, created at time 0, in segment
"s" of topic "T". -/
def staleIndex : Index :=
  ⟨fun t => if t = "T" then
      ⟨["s"], fun f => if f = "s" then ⟨[(0, 0)]⟩ else emptyFileMeta⟩
    else emptyMFL⟩

/-- The on-disk state matching `staleIndex`. -/
def staleState : DiskState :=
  ⟨some staleIndex, ["T"], [(("T", "s"), [⟨[9], 0, 0⟩])]⟩

/-- Store a list of messages one after the other into one topic,
collecting each call's result (each call runs under the store-wide mutex,
so consecutive calls see each other's final state). -/
def storeSeq (flt : Faults) (topic : String) (now : Nat) :
    DiskState → List Message → List StoreResult
  | _, [] => []
  | s, m :: rest =>
    let r := store s flt topic m now
    r :: storeSeq flt topic now r.state rest

/-- A message whose modelled encoded size is one byte above the segment
cap. -/
def bigMsg : Message := List.replicate 1048577 0

def mkdirFault : Faults := ⟨true, false, false, false, false, false⟩

def writeFault : Faults := ⟨false, false, false, true, false, false⟩

/-- The segment-cap invariant the code actually maintains: every segment
file on disk is at most `maximumFileSize` bytes, or else holds exactly
one (oversized) record. -/
def SegInv (s : DiskState) : Prop :=
  ∀ e ∈ s.files, fileSize e.2 ≤ maximumFileSize ∨ e.2.length = 1

-- ------------------------------------------------------------------
-- Helper lemmas
-- ------------------------------------------------------------------

theorem le_maxOf_of_mem {x : Int} : ∀ {l : List Int}, x ∈ l → x ≤ maxOf l := by
  intro l
  induction l with
  | nil => intro h; cases h
  | cons a l ih =>
    intro h
    rcases List.mem_cons.mp h with rfl | h2
    · exact le_max_left _ _
    · exact le_trans (ih h2) (le_max_right _ _)

theorem maxOf_le_of_forall {b : Int} :
    ∀ {l : List Int}, (-1 : Int) ≤ b → (∀ x ∈ l, x ≤ b) → maxOf l ≤ b := by
  intro l
  induction l with
  | nil => intro h1 _; exact h1
  | cons a l ih =>
    intro h1 h2
    exact max_le (h2 a (List.mem_cons_self a l)) (ih h1 (fun x hx => h2 x (List.mem_cons_of_mem a hx)))

theorem neg_one_le_maxOf : ∀ (l : List Int), (-1 : Int) ≤ maxOf l := by
  intro l
  induction l with
  | nil => exact le_refl _
  | cons a l ih => exact le_trans ih (le_max_right _ _)

theorem mem_numsFor {meta : String → FileMeta} {x : Int} :
    ∀ {l : List String},
      x ∈ numsFor meta l ↔ ∃ fn, fn ∈ l ∧ x ∈ ((meta fn).msgMetas.map Prod.fst) := by
  intro l
  induction l with
  | nil => simp [numsFor]
  | cons a l ih =>
    simp only [numsFor, List.mem_append, ih, List.mem_cons]
    constructor
    · rintro (h | ⟨fn, hfn, hx⟩)
      · exact ⟨a, Or.inl rfl, h⟩
      · exact ⟨fn, Or.inr hfn, hx⟩
    · rintro ⟨fn, (rfl | hfn), hx⟩
      · exact Or.inl hx
      · exact Or.inr ⟨fn, hfn, hx⟩

theorem numsFor_congr {m1 m2 : String → FileMeta} :
    ∀ {l : List String}, (∀ fn ∈ l, m1 fn = m2 fn) → numsFor m1 l = numsFor m2 l := by
  intro l
  induction l with
  | nil => intro _; rfl
  | cons a l ih =>
    intro h
    simp only [numsFor]
    rw [h a (List.mem_cons_self a l), ih (fun fn hfn => h fn (List.mem_cons_of_mem a hfn))]

theorem numsFor_append (meta : String → FileMeta) (l1 l2 : List String) :
    numsFor meta (l1 ++ l2) = numsFor meta l1 ++ numsFor meta l2 := by
  induction l1 with
  | nil => rfl
  | cons a l ih => simp [numsFor, ih]

theorem freshName_length_pos : ∀ (l : List String), 0 < (freshName l).length := by
  intro l
  induction l with
  | nil => decide
  | cons a l ih => simp only [freshName, String.length_append]; omega

theorem length_lt_freshName {fn : String} :
    ∀ {l : List String}, fn ∈ l → fn.length < (freshName l).length := by
  intro l
  induction l with
  | nil => intro h; cases h
  | cons a l ih =>
    intro h
    rcases List.mem_cons.mp h with rfl | h2
    · simp only [freshName, String.length_append]
      have := freshName_length_pos l
      omega
    · simp only [freshName, String.length_append]
      have := ih h2
      omega

theorem freshName_not_mem (l : List String) : freshName l ∉ l := by
  intro h
  exact lt_irrefl _ (length_lt_freshName h)

theorem mem_of_getLast? {α : Type} : ∀ {l : List α} {a : α}, l.getLast? = some a → a ∈ l := by
  intro l
  induction l with
  | nil => intro a h; simp [List.getLast?] at h
  | cons x xs ih =>
    intro a h
    cases xs with
    | nil =>
      simp [List.getLast?] at h
      simp [h]
    | cons y ys =>
      rw [List.getLast?_cons_cons] at h
      exact List.mem_cons_of_mem x (ih h)

theorem createTopicDir_ok {s s1 : DiskState} {flt : Faults} {topic : String}
    (h : createTopicDirIfNotExists s flt topic = Except.ok s1) :
    s1.diskIndex = s.diskIndex ∧ s1.files = s.files := by
  unfold createTopicDirIfNotExists at h
  split at h
  · cases h; exact ⟨rfl, rfl⟩
  · split at h
    · exact Except.noConfusion h
    · cases h; exact ⟨rfl, rfl⟩

theorem saveIndex_ok {s s4 : DiskState} {flt : Faults} {index : Index}
    (h : saveIndex s flt index = Except.ok s4) :
    s4 = { s with diskIndex := some index } := by
  unfold saveIndex at h
  split at h
  · exact Except.noConfusion h
  · split at h
    · exact Except.noConfusion h
    · cases h; rfl

theorem setupNewFile_ok {s s2 : DiskState} {flt : Faults} {topic fn : String}
    {index idx2 : Index}
    (h : setupNewFileForTopic s flt topic index = Except.ok (fn, s2, idx2)) :
    fn = NewMsgFilenameFor topic index ∧
      s2 = { s with files := putFile s.files (topic, NewMsgFilenameFor topic index) [] } ∧
      idx2 = index.setEntry topic
        ((index.GetMessageFileListFor topic).RegisterNewFile (NewMsgFilenameFor topic index)) := by
  unfold setupNewFileForTopic at h
  split at h
  · exact Except.noConfusion h
  · cases h; exact ⟨rfl, rfl, rfl⟩

theorem saveAndRegister_ok {s s3 : DiskState} {flt : Faults} {fn topic : String}
    {msg : storedMessage} {n : Int} {now : Nat} {index idx3 : Index}
    (h : saveAndRegisterMessage s flt fn topic msg n now index = Except.ok (s3, idx3)) :
    ∃ records, getFile s.files (topic, fn) = some records ∧
      s3 = { s with files := putFile s.files (topic, fn) (records ++ [msg]) } ∧
      idx3 = index.setEntry topic
        ⟨(index.GetMessageFileListFor topic).fileNames,
          fun x => if x = fn
            then ((index.GetMessageFileListFor topic).meta fn).RegisterNewMessage n now
            else (index.GetMessageFileListFor topic).meta x⟩ := by
  unfold saveAndRegisterMessage at h
  split at h
  · exact Except.noConfusion h
  · split at h
    · exact Except.noConfusion h
    · cases h
      rename_i records hg _
      exact ⟨records, hg, rfl, rfl⟩

theorem saveAndRegister_writeFails {s : DiskState} {flt : Faults} {fn topic : String}
    {msg : storedMessage} {n : Int} {now : Nat} {index : Index}
    (hw : flt.writeFails = true) (r : DiskState × Index) :
    saveAndRegisterMessage s flt fn topic msg n now index ≠ Except.ok r := by
  intro h
  unfold saveAndRegisterMessage at h
  split at h
  · exact Except.noConfusion h
  · rw [hw] at h
    simp at h

theorem store_err_or_minus_one (s : DiskState) (flt : Faults) (topic : String)
    (m : Message) (now : Nat) :
    (store s flt topic m now).err = none ∨ (store s flt topic m now).messageNumber = -1 := by
  unfold store
  split
  · exact Or.inr rfl
  · split
    · exact Or.inr rfl
    · dsimp only
      split
      · exact Or.inr rfl
      · split
        · exact Or.inr rfl
        · split
          · exact Or.inr rfl
          · split
            · exact Or.inr rfl
            · exact Or.inl rfl

theorem maxOf_numsFor_register (fns : List String) (meta : String → FileMeta)
    (fn0 : String) (t : Nat) (n : Int) (hfn : fn0 ∈ fns)
    (hn : n = maxOf (numsFor meta fns) + 1) :
    maxOf (numsFor
        (fun x => if x = fn0 then (meta fn0).RegisterNewMessage n t else meta x) fns) = n := by
  have hmem : n ∈ numsFor
      (fun x => if x = fn0 then (meta fn0).RegisterNewMessage n t else meta x) fns := by
    apply mem_numsFor.mpr
    refine ⟨fn0, hfn, ?_⟩
    rw [if_pos rfl]
    unfold FileMeta.RegisterNewMessage
    rw [List.map_append, List.mem_append]
    right
    simp
  have hub : ∀ x ∈ numsFor
      (fun x => if x = fn0 then (meta fn0).RegisterNewMessage n t else meta x) fns, x ≤ n := by
    intro x hx
    rcases mem_numsFor.mp hx with ⟨fn, hfnl, hxm⟩
    by_cases hcase : fn = fn0
    · subst hcase
      rw [if_pos rfl] at hxm
      unfold FileMeta.RegisterNewMessage at hxm
      rw [List.map_append, List.mem_append] at hxm
      rcases hxm with hxm | hxm
      · have hx2 : x ∈ numsFor meta fns := mem_numsFor.mpr ⟨fn, hfnl, hxm⟩
        have := le_maxOf_of_mem hx2
        omega
      · simp only [List.map_cons, List.map_nil, List.mem_singleton] at hxm
        omega
    · rw [if_neg hcase] at hxm
      have hx2 : x ∈ numsFor meta fns := mem_numsFor.mpr ⟨fn, hfnl, hxm⟩
      have := le_maxOf_of_mem hx2
      omega
  have hge : (-1 : Int) ≤ n := by
    have := neg_one_le_maxOf (numsFor meta fns)
    omega
  exact le_antisymm (maxOf_le_of_forall hge hub) (le_maxOf_of_mem hmem)

theorem numsFor_registerNewFile (fns : List String) (meta : String → FileMeta) (fn : String)
    (hfresh : fn ∉ fns) :
    numsFor (fun x => if x = fn then ⟨[]⟩ else meta x) (fns ++ [fn]) = numsFor meta fns := by
  rw [numsFor_append]
  have h1 : numsFor (fun x => if x = fn then (⟨[]⟩ : FileMeta) else meta x) fns
      = numsFor meta fns :=
    numsFor_congr (fun x hx => if_neg (fun hxy : x = fn => hfresh (hxy ▸ hx)))
  have h2 : numsFor (fun x => if x = fn then (⟨[]⟩ : FileMeta) else meta x) [fn] = [] := by
    simp [numsFor]
  rw [h1, h2, List.append_nil]

theorem next_after_register_general (idx idx2 : Index) {idx3 : Index} (topic fn1 : String)
    (n : Int) (t : Nat)
    (hn : n = idx.NextMessageNumberFor topic)
    (hfn : fn1 ∈ (idx2.GetMessageFileListFor topic).fileNames)
    (hsame : topicNums (idx2.GetMessageFileListFor topic) = topicNums (idx.entries topic))
    (hidx3 : idx3 = idx2.setEntry topic
      ⟨(idx2.GetMessageFileListFor topic).fileNames,
        fun x => if x = fn1
          then ((idx2.GetMessageFileListFor topic).meta fn1).RegisterNewMessage n t
          else (idx2.GetMessageFileListFor topic).meta x⟩) :
    idx3.NextMessageNumberFor topic = n + 1 := by
  subst hidx3
  have hn2 : n = maxOf (numsFor (idx2.GetMessageFileListFor topic).meta
      (idx2.GetMessageFileListFor topic).fileNames) + 1 := by
    have h3 : numsFor (idx2.GetMessageFileListFor topic).meta
        (idx2.GetMessageFileListFor topic).fileNames = topicNums (idx.entries topic) := hsame
    rw [h3, hn]
    rfl
  show maxOf (topicNums ((Index.setEntry idx2 topic _).entries topic)) + 1 = n + 1
  unfold Index.setEntry
  dsimp only
  rw [if_pos rfl]
  show maxOf (numsFor (fun x => if x = fn1
      then ((idx2.GetMessageFileListFor topic).meta fn1).RegisterNewMessage n t
      else (idx2.GetMessageFileListFor topic).meta x)
    (idx2.GetMessageFileListFor topic).fileNames) + 1 = n + 1
  rw [maxOf_numsFor_register _ _ _ _ _ hfn hn2]

theorem newfile_fn_mem (idx : Index) (topic : String) :
    NewMsgFilenameFor topic idx ∈
      ((idx.setEntry topic ((idx.GetMessageFileListFor topic).RegisterNewFile
        (NewMsgFilenameFor topic idx))).GetMessageFileListFor topic).fileNames := by
  unfold Index.GetMessageFileListFor Index.setEntry MessageFileList.RegisterNewFile
  dsimp only
  rw [if_pos rfl]
  exact List.mem_append_right _ (List.mem_singleton.mpr rfl)

theorem newfile_same_nums (idx : Index) (topic : String) :
    topicNums ((idx.setEntry topic ((idx.GetMessageFileListFor topic).RegisterNewFile
        (NewMsgFilenameFor topic idx))).GetMessageFileListFor topic)
      = topicNums (idx.entries topic) := by
  unfold Index.GetMessageFileListFor Index.setEntry MessageFileList.RegisterNewFile
    topicNums NewMsgFilenameFor
  dsimp only
  rw [if_pos rfl]
  exact numsFor_registerNewFile _ _ _ (freshName_not_mem _)

theorem current_mem (idx : Index) (topic : String)
    (h : idx.CurrentMsgFileNameFor topic ≠ "") :
    idx.CurrentMsgFileNameFor topic ∈ (idx.GetMessageFileListFor topic).fileNames := by
  unfold Index.CurrentMsgFileNameFor at h ⊢
  unfold Index.GetMessageFileListFor
  cases hl : (idx.entries topic).fileNames.getLast? with
  | none => rw [hl] at h; exact absurd rfl h
  | some a => exact mem_of_getLast? hl

theorem tail_next (s2 : DiskState) (flt : Faults) (topic fn1 : String) (m : Message)
    (now : Nat) (idx idx2 : Index)
    (hfn : fn1 ∈ (idx2.GetMessageFileListFor topic).fileNames)
    (hsame : topicNums (idx2.GetMessageFileListFor topic) = topicNums (idx.entries topic))
    {s3 : DiskState} {idx3 : Index}
    (hsam : saveAndRegisterMessage s2 flt fn1 topic
        (makeMsgToStore m now (idx.NextMessageNumberFor topic))
        (idx.NextMessageNumberFor topic) now idx2 = Except.ok (s3, idx3)) :
    idx3.NextMessageNumberFor topic = idx.NextMessageNumberFor topic + 1 := by
  obtain ⟨records, hrec, hs3, hidx3⟩ := saveAndRegister_ok hsam
  exact next_after_register_general idx idx2 topic fn1 _ now rfl hfn hsame hidx3

theorem store_success_next (s : DiskState) (flt : Faults) (topic : String) (m : Message)
    (now : Nat) (idx : Index) (hidx : s.diskIndex = some idx)
    (hok : (store s flt topic m now).err = none) :
    (store s flt topic m now).messageNumber = idx.NextMessageNumberFor topic ∧
      ∃ idx3, (store s flt topic m now).state.diskIndex = some idx3 ∧
        idx3.NextMessageNumberFor topic = idx.NextMessageNumberFor topic + 1 := by
  have hri : retrieveIndexFromDisk s = Except.ok idx := by
    unfold retrieveIndexFromDisk; rw [hidx]
  unfold store at hok ⊢
  rw [hri] at hok ⊢
  cases hdir : createTopicDirIfNotExists s flt topic with
  | error e =>
    rw [hdir] at hok
    try dsimp only at hok
    exact Option.noConfusion hok
  | ok s1 =>
    rw [hdir] at hok
    try dsimp only at hok ⊢
    by_cases hcur : idx.CurrentMsgFileNameFor topic = ""
    · rw [if_pos hcur] at hok ⊢
      try dsimp only at hok ⊢
      rw [if_pos rfl] at hok ⊢
      cases hsetup : setupNewFileForTopic s1 flt topic idx with
      | error e =>
        rw [hsetup] at hok
        try dsimp only at hok
        exact Option.noConfusion hok
      | ok trip =>
        obtain ⟨fn1, s2, idx2⟩ := trip
        rw [hsetup] at hok
        try dsimp only at hok ⊢
        cases hsam : saveAndRegisterMessage s2 flt fn1 topic
            (makeMsgToStore m now (idx.NextMessageNumberFor topic))
            (idx.NextMessageNumberFor topic) now idx2 with
        | error e =>
          rw [hsam] at hok
          try dsimp only at hok
          exact Option.noConfusion hok
        | ok pair =>
          obtain ⟨s3, idx3⟩ := pair
          rw [hsam] at hok
          try dsimp only at hok ⊢
          cases hsi : saveIndex s3 flt idx3 with
          | error e =>
            rw [hsi] at hok
            try dsimp only at hok
            exact Option.noConfusion hok
          | ok s4 =>
            dsimp only
            obtain ⟨hfn1, hs2, hidx2⟩ := setupNewFile_ok hsetup
            refine ⟨rfl, idx3, ?_, ?_⟩
            · rw [saveIndex_ok hsi]
            · subst hfn1
              subst hidx2
              exact tail_next s2 flt topic _ m now idx _
                (newfile_fn_mem idx topic) (newfile_same_nums idx topic) hsam
    · rw [if_neg hcur] at hok ⊢
      cases hroom : fileHasInsufficentRoom s1 flt (idx.CurrentMsgFileNameFor topic) topic
          (encodedSize (makeMsgToStore m now (idx.NextMessageNumberFor topic))) with
      | error e =>
        rw [hroom] at hok
        try dsimp only at hok
        exact Option.noConfusion hok
      | ok b =>
        rw [hroom] at hok
        try dsimp only at hok ⊢
        cases b with
        | true =>
          try dsimp only at hok ⊢
          rw [if_pos rfl] at hok ⊢
          cases hsetup : setupNewFileForTopic s1 flt topic idx with
          | error e =>
            rw [hsetup] at hok
            try dsimp only at hok
            exact Option.noConfusion hok
          | ok trip =>
            obtain ⟨fn1, s2, idx2⟩ := trip
            rw [hsetup] at hok
            try dsimp only at hok ⊢
            cases hsam : saveAndRegisterMessage s2 flt fn1 topic
                (makeMsgToStore m now (idx.NextMessageNumberFor topic))
                (idx.NextMessageNumberFor topic) now idx2 with
            | error e =>
              rw [hsam] at hok
              try dsimp only at hok
              exact Option.noConfusion hok
            | ok pair =>
              obtain ⟨s3, idx3⟩ := pair
              rw [hsam] at hok
              try dsimp only at hok ⊢
              cases hsi : saveIndex s3 flt idx3 with
              | error e =>
                rw [hsi] at hok
                try dsimp only at hok
                exact Option.noConfusion hok
              | ok s4 =>
                dsimp only
                obtain ⟨hfn1, hs2, hidx2⟩ := setupNewFile_ok hsetup
                refine ⟨rfl, idx3, ?_, ?_⟩
                · rw [saveIndex_ok hsi]
                · subst hfn1
                  subst hidx2
                  exact tail_next s2 flt topic _ m now idx _
                    (newfile_fn_mem idx topic) (newfile_same_nums idx topic) hsam
        | false =>
          try dsimp only at hok ⊢
          rw [if_neg Bool.false_ne_true] at hok ⊢
          try dsimp only at hok ⊢
          cases hsam : saveAndRegisterMessage s1 flt (idx.CurrentMsgFileNameFor topic) topic
              (makeMsgToStore m now (idx.NextMessageNumberFor topic))
              (idx.NextMessageNumberFor topic) now idx with
          | error e =>
            rw [hsam] at hok
            try dsimp only at hok
            exact Option.noConfusion hok
          | ok pair =>
            obtain ⟨s3, idx3⟩ := pair
            rw [hsam] at hok
            try dsimp only at hok ⊢
            cases hsi : saveIndex s3 flt idx3 with
            | error e =>
              rw [hsi] at hok
              try dsimp only at hok
              exact Option.noConfusion hok
            | ok s4 =>
              dsimp only
              refine ⟨rfl, idx3, ?_, ?_⟩
              · rw [saveIndex_ok hsi]
              · exact tail_next s1 flt topic _ m now idx idx
                  (current_mem idx topic hcur) rfl hsam

theorem range_shift (k : Int) (n : Nat) :
    k :: (List.range n).map (fun i : Nat => (k + 1) + (i : Int))
      = (List.range (n + 1)).map (fun i : Nat => k + (i : Int)) := by
  rw [List.range_succ_eq_map, List.map_cons, List.map_map]
  have h1 : ((fun i : Nat => k + (i : Int)) ∘ Nat.succ) = (fun i : Nat => (k + 1) + (i : Int)) := by
    funext i
    simp only [Function.comp_apply, Nat.cast_succ]
    ring
  rw [h1]
  norm_num

theorem mem_putFile {files : List ((String × String) × List storedMessage)}
    {k : String × String} {v : List storedMessage} :
    ∀ e ∈ putFile files k v, e ∈ files ∨ e = (k, v) := by
  induction files with
  | nil =>
    intro e he
    unfold putFile at he
    rcases List.mem_singleton.mp he with rfl
    exact Or.inr rfl
  | cons p rest ih =>
    intro e he
    obtain ⟨k2, v2⟩ := p
    unfold putFile at he
    split at he
    · rcases List.mem_cons.mp he with rfl | h2
      · exact Or.inr rfl
      · exact Or.inl (List.mem_cons_of_mem _ h2)
    · rcases List.mem_cons.mp he with rfl | h2
      · exact Or.inl (List.mem_cons_self _ _)
      · rcases ih e h2 with h3 | h3
        · exact Or.inl (List.mem_cons_of_mem _ h3)
        · exact Or.inr h3

theorem getFile_putFile_same (files : List ((String × String) × List storedMessage))
    (k : String × String) (v : List storedMessage) :
    getFile (putFile files k v) k = some v := by
  induction files with
  | nil =>
    unfold putFile getFile
    rw [if_pos rfl]
  | cons p rest ih =>
    obtain ⟨k2, v2⟩ := p
    unfold putFile
    by_cases hk : k2 = k
    · rw [if_pos hk]
      unfold getFile
      rw [if_pos rfl]
    · rw [if_neg hk]
      unfold getFile
      rw [if_neg hk]
      exact ih

theorem fileSize_append_one (l : List storedMessage) (x : storedMessage) :
    fileSize (l ++ [x]) = fileSize l + encodedSize x := by
  unfold fileSize
  rw [List.map_append, List.sum_append]
  simp

theorem room_ok {s : DiskState} {flt : Faults} {fn topic : String} {msgSize : Nat} {b : Bool}
    (h : fileHasInsufficentRoom s flt fn topic msgSize = Except.ok b) :
    ∃ records, getFile s.files (topic, fn) = some records ∧
      (b = false → fileSize records + msgSize ≤ maximumFileSize) := by
  unfold fileHasInsufficentRoom at h
  split at h
  · exact Except.noConfusion h
  · rename_i records hg
    split at h
    · exact Except.noConfusion h
    · cases h
      refine ⟨records, hg, ?_⟩
      intro hb
      have h2 := of_decide_eq_false hb
      omega

/-- The encoded size of the oversized record: one byte above the cap. -/
theorem encodedSize_bigMsg : encodedSize (makeMsgToStore bigMsg 0 0) = 1048577 := by
  unfold encodedSize makeMsgToStore bigMsg
  exact List.length_replicate _ _

-- ------------------------------------------------------------------
-- Claim theorems
-- ------------------------------------------------------------------

/-- C1: starting from any store whose index file is readable, a sequence
of N `store` calls for one topic that all succeed returns exactly the
consecutive message numbers k, k+1, ..., k+N-1 in call order, where k is
the topic's next message number in the initial index. -/
theorem store_sequence_returns_consecutive_numbers (flt : Faults) (topic : String)
    (now : Nat) :
    ∀ (msgs : List Message) (s : DiskState) (idx : Index),
      s.diskIndex = some idx →
      (∀ r ∈ storeSeq flt topic now s msgs, r.err = none) →
      (storeSeq flt topic now s msgs).map StoreResult.messageNumber
        = (List.range msgs.length).map
            (fun i : Nat => idx.NextMessageNumberFor topic + (i : Int)) := by
  intro msgs
  induction msgs with
  | nil => intro s idx hidx hsucc; rfl
  | cons m rest ih =>
    intro s idx hidx hsucc
    have hlist : storeSeq flt topic now s (m :: rest)
        = store s flt topic m now
          :: storeSeq flt topic now (store s flt topic m now).state rest := rfl
    have hok : (store s flt topic m now).err = none :=
      hsucc _ (by rw [hlist]; exact List.mem_cons_self _ _)
    obtain ⟨hnum, idx3, hdi, hnext⟩ := store_success_next s flt topic m now idx hidx hok
    have hsucc2 : ∀ r ∈ storeSeq flt topic now (store s flt topic m now).state rest,
        r.err = none := by
      intro r hr
      exact hsucc r (by rw [hlist]; exact List.mem_cons_of_mem _ hr)
    have ihr := ih (store s flt topic m now).state idx3 hdi hsucc2
    rw [hlist, List.map_cons, ihr, hnum, hnext]
    exact range_shift (idx.NextMessageNumberFor topic) rest.length

/-- C1 witness: three messages stored into a fresh store receive numbers
0, 1, 2. -/
theorem store_sequence_returns_consecutive_numbers_witness :
    (storeSeq noFaults "T" 0 initState [[1], [2, 2], [3]]).map StoreResult.messageNumber
      = (List.range 3).map (fun i : Nat => emptyIndex.NextMessageNumberFor "T" + (i : Int)) :=
  store_sequence_returns_consecutive_numbers noFaults "T" 0 [[1], [2, 2], [3]] initState
    emptyIndex rfl (by decide)

/-- C2: `Poll` as written in filestore.go is a stub: on a store holding
message number 0 in topic "T", `Poll("T", 0)` returns no messages and the
constant `newReadFrom = 11`, where the documented contract requires the
stored message and `newReadFrom = 1` (or the input 0 when nothing is
found). -/
theorem poll_stub_ignores_store_and_returns_eleven :
    FileStore.Poll staleState "T" 0 = (([], 11, none), []) := rfl

/-- C3: `RemoveOldMessages` as written in filestore.go is a stub: on a
store holding a message created at time 0 and a cutoff of 100 it removes
nothing (the state is returned unchanged, the old message still on disk)
and returns `-1` instead of the per-topic map of removed numbers required
by the `BackingStore` interface. -/
theorem removeOldMessages_stub_removes_nothing :
    FileStore.RemoveOldMessages staleState 100 = ((-1, none, staleState), []) ∧
      getFile (FileStore.RemoveOldMessages staleState 100).1.2.2.files ("T", "s")
        = some [⟨[9], 0, 0⟩] :=
  ⟨rfl, rfl⟩

/-- C4 counterexample: a single message whose encoded size is 1048577
bytes is stored into a fresh segment whose resulting size exceeds the
1 MiB cap, refuting the claim that no segment ever exceeds the cap for
every message size. -/
theorem store_oversized_message_exceeds_cap :
    getFile (store initState noFaults "T" bigMsg 0).state.files ("T", "s")
      = some [makeMsgToStore bigMsg 0 0] ∧
      maximumFileSize < fileSize [makeMsgToStore bigMsg 0 0] := by
  constructor
  · rfl
  · unfold fileSize
    rw [List.map_cons, List.map_nil, List.sum_cons, List.sum_nil, encodedSize_bigMsg]
    unfold maximumFileSize
    omega

/-- C4 (amended): `store` preserves the segment-cap invariant: after any
call, every segment file is at most 1 MiB or holds exactly one record. -/
theorem store_preserves_segment_cap (s : DiskState) (flt : Faults) (topic : String)
    (m : Message) (now : Nat) (h : SegInv s) :
    SegInv (store s flt topic m now).state := by
  unfold store
  cases hri : retrieveIndexFromDisk s with
  | error e => exact h
  | ok idx =>
    dsimp only
    cases hdir : createTopicDirIfNotExists s flt topic with
    | error e => exact h
    | ok s1 =>
      have h1 : SegInv s1 := by
        intro e he
        rw [(createTopicDir_ok hdir).2] at he
        exact h e he
      dsimp only
      by_cases hcur : idx.CurrentMsgFileNameFor topic = ""
      · rw [if_pos hcur]
        dsimp only
        rw [if_pos rfl]
        cases hsetup : setupNewFileForTopic s1 flt topic idx with
        | error e => exact h1
        | ok trip =>
          obtain ⟨fn1, s2, idx2⟩ := trip
          dsimp only
          obtain ⟨hfn1, hs2, hidx2⟩ := setupNewFile_ok hsetup
          have h2 : SegInv s2 := by
            intro e he
            rw [hs2] at he
            rcases mem_putFile e he with h3 | rfl
            · exact h1 e h3
            · left
              simp [fileSize]
          have hrec0 : getFile s2.files (topic, fn1) = some [] := by
            rw [hs2, hfn1]
            exact getFile_putFile_same _ _ _
          cases hsam : saveAndRegisterMessage s2 flt fn1 topic
              (makeMsgToStore m now (idx.NextMessageNumberFor topic))
              (idx.NextMessageNumberFor topic) now idx2 with
          | error e => exact h2
          | ok pair =>
            obtain ⟨s3, idx3⟩ := pair
            dsimp only
            obtain ⟨records, hrec, hs3, hidx3⟩ := saveAndRegister_ok hsam
            have hrecords : records = [] := (Option.some.inj (hrec0.symm.trans hrec)).symm
            have h3inv : SegInv s3 := by
              intro e he
              rw [hs3] at he
              rcases mem_putFile e he with h4 | rfl
              · exact h2 e h4
              · right
                rw [hrecords]
                simp
            cases hsi : saveIndex s3 flt idx3 with
            | error e => exact h3inv
            | ok s4 =>
              rw [saveIndex_ok hsi]
              exact fun e he => h3inv e he
      · rw [if_neg hcur]
        cases hroom : fileHasInsufficentRoom s1 flt (idx.CurrentMsgFileNameFor topic) topic
            (encodedSize (makeMsgToStore m now (idx.NextMessageNumberFor topic))) with
        | error e => exact h1
        | ok b =>
          dsimp only
          cases b with
          | true =>
            try dsimp only
            rw [if_pos rfl]
            cases hsetup : setupNewFileForTopic s1 flt topic idx with
            | error e => exact h1
            | ok trip =>
              obtain ⟨fn1, s2, idx2⟩ := trip
              dsimp only
              obtain ⟨hfn1, hs2, hidx2⟩ := setupNewFile_ok hsetup
              have h2 : SegInv s2 := by
                intro e he
                rw [hs2] at he
                rcases mem_putFile e he with h3 | rfl
                · exact h1 e h3
                · left
                  simp [fileSize]
              have hrec0 : getFile s2.files (topic, fn1) = some [] := by
                rw [hs2, hfn1]
                exact getFile_putFile_same _ _ _
              cases hsam : saveAndRegisterMessage s2 flt fn1 topic
                  (makeMsgToStore m now (idx.NextMessageNumberFor topic))
                  (idx.NextMessageNumberFor topic) now idx2 with
              | error e => exact h2
              | ok pair =>
                obtain ⟨s3, idx3⟩ := pair
                dsimp only
                obtain ⟨records, hrec, hs3, hidx3⟩ := saveAndRegister_ok hsam
                have hrecords : records = [] := (Option.some.inj (hrec0.symm.trans hrec)).symm
                have h3inv : SegInv s3 := by
                  intro e he
                  rw [hs3] at he
                  rcases mem_putFile e he with h4 | rfl
                  · exact h2 e h4
                  · right
                    rw [hrecords]
                    simp
                cases hsi : saveIndex s3 flt idx3 with
                | error e => exact h3inv
                | ok s4 =>
                  rw [saveIndex_ok hsi]
                  exact fun e he => h3inv e he
          | false =>
            try dsimp only
            rw [if_neg Bool.false_ne_true]
            dsimp only
            obtain ⟨records0, hrec0, hbound⟩ := room_ok hroom
            cases hsam : saveAndRegisterMessage s1 flt (idx.CurrentMsgFileNameFor topic) topic
                (makeMsgToStore m now (idx.NextMessageNumberFor topic))
                (idx.NextMessageNumberFor topic) now idx with
            | error e => exact h1
            | ok pair =>
              obtain ⟨s3, idx3⟩ := pair
              dsimp only
              obtain ⟨records, hrec, hs3, hidx3⟩ := saveAndRegister_ok hsam
              have hrecords : records = records0 := (Option.some.inj (hrec0.symm.trans hrec)).symm
              have h3inv : SegInv s3 := by
                intro e he
                rw [hs3] at he
                rcases mem_putFile e he with h4 | rfl
                · exact h1 e h4
                · left
                  rw [fileSize_append_one, hrecords]
                  exact hbound rfl
              cases hsi : saveIndex s3 flt idx3 with
              | error e => exact h3inv
              | ok s4 =>
                rw [saveIndex_ok hsi]
                exact fun e he => h3inv e he

/-- C4 (amended) witness: the invariant holds for a fresh store and is
preserved by a store call placing one small message. -/
theorem store_preserves_segment_cap_witness :
    SegInv (store initState noFaults "T" [5, 5] 0).state :=
  store_preserves_segment_cap initState noFaults "T" [5, 5] 0
    (fun e he => absurd he (List.not_mem_nil e))

/-- C5: when the append of the encoded record to the segment file
fails, `store` returns an error with message number `-1` and does not
persist the updated Index: the on-disk index after the failed call equals
the one before it (here the injected fault makes every write fail, so the
call always errors). -/
theorem store_write_failure_keeps_disk_index (s : DiskState) (flt : Faults)
    (topic : String) (m : Message) (now : Nat) (hw : flt.writeFails = true) :
    (store s flt topic m now).err.isSome = true ∧
      (store s flt topic m now).state.diskIndex = s.diskIndex ∧
      (store s flt topic m now).messageNumber = -1 := by
  unfold store
  split
  · exact ⟨rfl, rfl, rfl⟩
  · rename_i index hri
    split
    · exact ⟨rfl, rfl, rfl⟩
    · rename_i s1 hdir
      have hd1 := (createTopicDir_ok hdir).1
      dsimp only
      split
      · exact ⟨rfl, hd1, rfl⟩
      · rename_i needNewFile hroom
        split
        · exact ⟨rfl, hd1, rfl⟩
        · rename_i fileName2 s2 index2 hsel
          split
          · rename_i e hsam
            have hs2 : s2.diskIndex = s1.diskIndex := by
              cases needNewFile with
              | false =>
                simp at hsel
                obtain ⟨-, h2, -⟩ := hsel
                rw [← h2]
              | true =>
                rw [if_pos rfl] at hsel
                obtain ⟨-, h2, -⟩ := setupNewFile_ok hsel
                rw [h2]
            exact ⟨rfl, hs2.trans hd1, rfl⟩
          · rename_i s3 index3 hsam
            exact absurd hsam (saveAndRegister_writeFails hw (s3, index3))

/-- C5 witness: a concrete store call with an injected write fault. -/
theorem store_write_failure_keeps_disk_index_witness :
    (store staleState writeFault "T" [7] 1).err.isSome = true ∧
      (store staleState writeFault "T" [7] 1).state.diskIndex = staleState.diskIndex ∧
      (store staleState writeFault "T" [7] 1).messageNumber = -1 :=
  store_write_failure_keeps_disk_index staleState writeFault "T" [7] 1 rfl

/-- C6: if the index file cannot be opened or decoded, `store` returns an
error with message number `-1` and the resulting on-disk state is exactly
the initial one: no directory created, no segment file created or
written. -/
theorem store_index_unavailable_mutates_nothing (s : DiskState) (flt : Faults)
    (topic : String) (m : Message) (now : Nat) (h : s.diskIndex = none) :
    store s flt topic m now = ⟨-1, some "RetrieveIndexFromDisk(): os.Open()", s⟩ := by
  unfold store retrieveIndexFromDisk
  rw [h]
  rfl

/-- C6 witness: a store with a missing index file: `store` errors and the
state it returns is untouched. -/
theorem store_index_unavailable_mutates_nothing_witness :
    store noIndexState noFaults "T" [1] 0
      = ⟨-1, some "RetrieveIndexFromDisk(): os.Open()", noIndexState⟩ :=
  store_index_unavailable_mutates_nothing noIndexState noFaults "T" [1] 0 rfl

/-- C7 (amended): after deleting all store contents (which removes the
index file too), a subsequent `store` does not yield the origin message
number: it fails with an index-unavailable error and returns `-1`. -/
theorem delete_then_store_returns_error (s : DiskState) (flt : Faults) (topic : String)
    (m : Message) (now : Nat) (h : flt.readDirFails = false) :
    (store (deleteContents s flt).2 flt topic m now).messageNumber = -1 ∧
      (store (deleteContents s flt).2 flt topic m now).err.isSome = true := by
  have hdel : (deleteContents s flt).2 = ⟨none, [], []⟩ := by
    unfold deleteContents
    rw [h]
    rfl
  rw [hdel]
  exact ⟨rfl, rfl⟩

/-- C7 witness: delete-then-store on a fresh store errors with `-1`. -/
theorem delete_then_store_returns_error_witness :
    (store (deleteContents initState noFaults).2 noFaults "T" [1] 0).messageNumber = -1 ∧
      (store (deleteContents initState noFaults).2 noFaults "T" [1] 0).err.isSome = true :=
  delete_then_store_returns_error initState noFaults "T" [1] 0 rfl

/-- C7 counterexample: on a store already holding message number 0 in
topic "T", deleting all contents and then storing one message returns
`-1` with an error, not the origin number 0 the claim requires. -/
theorem delete_then_store_counterexample :
    (store (deleteContents staleState noFaults).2 noFaults "T" [7] 0).messageNumber = -1 ∧
      (store (deleteContents staleState noFaults).2 noFaults "T" [7] 0).err.isSome = true ∧
      (store (deleteContents staleState noFaults).2 noFaults "T" [7] 0).messageNumber ≠ 0 :=
  ⟨rfl, rfl, by decide⟩

/-- C8: the mutex events of the public methods: `Store` and
`DeleteContents` take the store-wide mutex for their whole duration, but
the `RemoveOldMessages` and `Poll` bodies perform no mutex operation at
all, contradicting the claim that every invocation of all three
operations acquires the lock. -/
theorem poll_and_removeOld_do_not_lock :
    (FileStore.Poll initState "T" 0).2 = [] ∧
      (FileStore.RemoveOldMessages initState 0).2 = [] ∧
      (FileStore.Store initState noFaults "T" [1] 0).2
        = [LockEvent.lock, LockEvent.unlock] ∧
      (FileStore.DeleteContents initState noFaults).2
        = [LockEvent.lock, LockEvent.unlock] :=
  ⟨rfl, rfl, rfl, rfl⟩

/-- C9: ensuring the topic directory is idempotent: when the directory
already exists the operation succeeds with the state unchanged even if
`os.Mkdir` would fail, and any other directory-creation failure makes the
helper error and `store` abort with `-1` and the untouched state. -/
theorem createTopicDir_already_exists_ok (s : DiskState) (flt : Faults) (topic : String) :
    (topic ∈ s.topicDirs → createTopicDirIfNotExists s flt topic = Except.ok s) ∧
      (topic ∉ s.topicDirs → flt.mkdirFails = true →
        createTopicDirIfNotExists s flt topic = Except.error "os.Mkdir()") ∧
      (∀ (m : Message) (now : Nat) (idx : Index), s.diskIndex = some idx →
        topic ∉ s.topicDirs → flt.mkdirFails = true →
        store s flt topic m now
          = ⟨-1, some "createTopicDirIfNotExists: os.Mkdir()", s⟩) := by
  refine ⟨?_, ?_, ?_⟩
  · intro h
    unfold createTopicDirIfNotExists
    rw [if_pos h]
  · intro h hf
    unfold createTopicDirIfNotExists
    rw [if_neg h, if_pos hf]
  · intro m now idx hidx h hf
    have hri : retrieveIndexFromDisk s = Except.ok idx := by
      unfold retrieveIndexFromDisk
      rw [hidx]
    have hdir : createTopicDirIfNotExists s flt topic = Except.error "os.Mkdir()" := by
      unfold createTopicDirIfNotExists
      rw [if_neg h, if_pos hf]
    unfold store
    rw [hri, hdir]
    rfl

/-- C9 witness: concrete stores with and without the topic directory. -/
theorem createTopicDir_already_exists_ok_witness :
    createTopicDirIfNotExists staleState mkdirFault "T" = Except.ok staleState ∧
      createTopicDirIfNotExists initState mkdirFault "T" = Except.error "os.Mkdir()" :=
  ⟨(createTopicDir_already_exists_ok staleState mkdirFault "T").1 (by decide),
   (createTopicDir_already_exists_ok initState mkdirFault "T").2.1 (by decide) rfl⟩

/-- C10: whenever `store` returns a non-nil error, the returned message
number is the sentinel `-1`, on every error path. -/
theorem store_error_returns_minus_one (s : DiskState) (flt : Faults) (topic : String)
    (m : Message) (now : Nat) (h : (store s flt topic m now).err.isSome = true) :
    (store s flt topic m now).messageNumber = -1 := by
  rcases store_err_or_minus_one s flt topic m now with h2 | h2
  · rw [h2] at h
    exact absurd h (by simp)
  · exact h2

/-- C10 witness: the index-unavailable error path returns `-1`. -/
theorem store_error_returns_minus_one_witness :
    (store noIndexState noFaults "q" [2] 3).messageNumber = -1 :=
  store_error_returns_minus_one noIndexState noFaults "q" [2] 3 (by decide)

end ToyKafka
